import Mathlib

/-!
# Verification of the imCmp duplicate-image curation pipeline

Shallow embedding of the core of `src/main.py` and `src/backend.py`:
candidate pair generation with aspect-ratio filtering, the similarity
scorer's common-target-size derivation, the ranking of scored pairs, and
the interactive curation session state machine (`BackEnd`).

Filesystem paths are modelled by the opaque `ImageRef` record: `parent`
and `name` stand for the directory part and the file name (Nat stands in
for strings, ordered as path components are), `ext` is the (already
lower-cased) file suffix, `fmt` the decoded image format reported by the
decoder, and `w`/`h` the pixel dimensions of the stored image.  Real
arithmetic of the Python source (float) is modelled with exact rationals.
-/

namespace ImCmp

/-- An image file on disk, as the program sees it: its location
(`parent`, `name`), its lower-cased suffix `ext`, the format string the
decoder reports (`"PNG"`, `"JPEG"`, ...), and its pixel dimensions. -/
structure ImageRef where
  parent : ℕ
  name : ℕ
  ext : String
  fmt : String
  w : ℕ
  h : ℕ
  deriving DecidableEq, Repr

/-- Path order: compare the directory part first, then the file name.
Models Python's ordering of `Path` objects (componentwise string order). -/
def refLe (a b : ImageRef) : Prop :=
  a.parent < b.parent ∨ (a.parent = b.parent ∧ a.name ≤ b.name)

instance : DecidableRel refLe := fun a b => by
  unfold refLe; infer_instance

instance : IsTotal ImageRef refLe := ⟨fun a b => by
  unfold refLe; omega⟩

instance : IsTrans ImageRef refLe := ⟨fun a b c hab hbc => by
  unfold refLe at *; omega⟩

/-- `main.py` line 16: the recognised image suffixes. -/
def IMAGE_EXTENSIONS : List String := [".jpg", ".png", ".gif", ".webp"]

/-- A source directory: the list of directory entries `iterdir` yields,
in an arbitrary on-disk order (`get_images` sorts them). -/
structure Dir where
  files : List ImageRef
  deriving DecidableEq

/-- `main.py` `get_images` (lines 32-37): for each directory in turn,
keep the files whose suffix is a recognised image extension, sort them,
and concatenate the per-directory lists. -/
def get_images (dirs : List Dir) : List ImageRef :=
  (dirs.map (fun d =>
    List.insertionSort refLe (d.files.filter (fun f => f.ext ∈ IMAGE_EXTENSIONS)))).flatten

/-- The aspect ratio width/height of an image, as probed by
`Image.open(...).size` (`main.py` lines 69-74); the `ar_cache` dict is
pure memoisation of this value, so it is modelled as a function. -/
def ratio (r : ImageRef) : ℚ := (r.w : ℚ) / (r.h : ℚ)

/-- All unordered 2-combinations of a list in `itertools.combinations`
order: the pair `(l[i], l[j])` for every `i < j`, lexicographic in `(i, j)`. -/
def comb2 : List ImageRef → List (ImageRef × ImageRef)
  | [] => []
  | x :: xs => (xs.map (fun y => (x, y))) ++ comb2 xs

/-- `main.py` `get_pairs` (lines 61-82): walk the 2-combinations, skip a
combination when `cross` is set and the two files share a parent
directory, skip it when the absolute difference of the aspect ratios
exceeds `tolerance`, and emit the rest in combination order. -/
def get_pairs (images : List ImageRef) (cross : Bool) (tolerance : ℚ) :
    List (ImageRef × ImageRef) :=
  (comb2 images).filter fun p =>
    if cross ∧ p.1.parent = p.2.parent then false
    else if |ratio p.1 - ratio p.2| > tolerance then false
    else true

/-- Python's `int()` on a real value: truncation toward zero. -/
def pyInt (q : ℚ) : ℤ := if 0 ≤ q then ⌊q⌋ else ⌈q⌉

/-- The common target size `(w, h)` derived in `similarity`
(`main.py` lines 108-119) from the two decoded shapes and the requested
`resolution`: average the two aspect ratios; in the portrait case
(`avg_ar < 1`) set `w = int(resolution * avg_ar)`, `h = resolution`,
otherwise `w = resolution`, `h = int(resolution / avg_ar)`. -/
def target_size (w1 h1 w2 h2 : ℕ) (resolution : ℕ) : ℤ × ℤ :=
  let avg_ar : ℚ := ((w1 : ℚ) / (h1 : ℚ) + (w2 : ℚ) / (h2 : ℚ)) / 2
  if avg_ar < 1 then (pyInt ((resolution : ℚ) * avg_ar), (resolution : ℤ))
  else ((resolution : ℤ), pyInt ((resolution : ℚ) / avg_ar))

/-- The target size as the specification words it: `round` to the
nearest integer in place of the code's truncation (second definition,
following the spec's words, to be compared with `target_size`). -/
def spec_target_size_round (w1 h1 w2 h2 : ℕ) (resolution : ℕ) : ℤ × ℤ :=
  let avg_ar : ℚ := ((w1 : ℚ) / (h1 : ℚ) + (w2 : ℚ) / (h2 : ℚ)) / 2
  if avg_ar < 1 then (round ((resolution : ℚ) * avg_ar), (resolution : ℤ))
  else ((resolution : ℤ), round ((resolution : ℚ) / avg_ar))

/-- A scored pair, as produced by `zip(pairs, scores)` in `main.py`. -/
abbrev ScoredPair := (ImageRef × ImageRef) × ℚ

/-- The ranking order: `a` may precede `b` when `a`'s score is at least
`b`'s.  With a stable sort this is exactly Python's
`sorted(..., key=lambda x: x[1], reverse=True)`. -/
def scoreGe (a b : ScoredPair) : Prop := b.2 ≤ a.2

instance : DecidableRel scoreGe := fun a b => by
  unfold scoreGe; infer_instance

instance : IsTotal ScoredPair scoreGe := ⟨fun a b => le_total b.2 a.2⟩

instance : IsTrans ScoredPair scoreGe := ⟨fun a b c hab hbc => by
  unfold scoreGe at *; exact le_trans hbc hab⟩

/-- `main.py` line 165: `sorted(zip(pairs, scores), key=lambda x: x[1],
reverse=True)`, a stable sort by score descending, modelled by a stable
insertion sort under `scoreGe`. -/
def rank_pairs (l : List ScoredPair) : List ScoredPair :=
  List.insertionSort scoreGe l

/-! ## The curation session (`src/backend.py`, class `BackEnd`)

The stats strings built in `_load_pair` have the fixed shape
`<font color="c">WxH</font> <font color="c2">FMT</font>` (with the
`font` element absent where no colour is assigned); the dimension text
and the format text never contain a colour name, so the chained
`str.replace` calls of `toggle_image` touch exactly the two colour
attributes.  The strings are therefore modelled by the `Stats` record:
an optional colour for the dimension text, the dimension text's payload,
an optional colour for the format text, and the format payload. -/

/-- The six colour names `backend.py` uses in stats markup. -/
inductive Color where
  | forestGreen | limeGreen | crimson | orangeRed | royalBlue | dodgerBlue
  deriving DecidableEq, Repr, Fintype

/-- What a colour says about the annotated value: the dark/light green
pair marks the better side, crimson/orangeRed the worse side, and the
two blues an incomparable-but-different value. -/
inductive Marking where
  | better | worse | diff
  deriving DecidableEq, Repr, Fintype

/-- The presentational meaning of each colour. -/
def meaning : Color → Marking
  | .forestGreen => .better
  | .limeGreen => .better
  | .crimson => .worse
  | .orangeRed => .worse
  | .royalBlue => .diff
  | .dodgerBlue => .diff

/-- The darker palette, used for the side currently shown as primary. -/
def isDark : Color → Bool
  | .forestGreen => true
  | .crimson => true
  | .royalBlue => true
  | _ => false

/-- The lighter palette, used for the side currently not primary. -/
def isLight (c : Color) : Bool := !isDark c

/-- One stats string `[<font color=dimColor>]WxH[</font>]
[<font color=fmtColor>]FMT[</font>]` of `_load_pair`. -/
structure Stats where
  dimColor : Option Color
  dims : ℕ × ℕ
  fmtColor : Option Color
  fmt : String
  deriving DecidableEq, Repr

/-- `str.replace(c1, c2)` on a stats string: the colour names are the
only occurrences of colour text in the string, so the replacement acts
exactly on the two colour attributes. -/
def recolor (c1 c2 : Color) (st : Stats) : Stats :=
  { st with
    dimColor := st.dimColor.map (fun c => if c = c1 then c2 else c),
    fmtColor := st.fmtColor.map (fun c => if c = c1 then c2 else c) }

/-- The combined effect on one colour of the three replacements
`forestGreen -> limeGreen`, `crimson -> orangeRed`,
`royalBlue -> dodgerBlue` that `toggle_image` applies to the stats string
leaving the primary role. -/
def dlFun : Color → Color
  | .forestGreen => .limeGreen
  | .crimson => .orangeRed
  | .royalBlue => .dodgerBlue
  | c => c

/-- The combined effect on one colour of the three replacements
`limeGreen -> forestGreen`, `orangeRed -> crimson`,
`dodgerBlue -> royalBlue` that `toggle_image` applies to the stats string
entering the primary role. -/
def ldFun : Color → Color
  | .limeGreen => .forestGreen
  | .orangeRed => .crimson
  | .dodgerBlue => .royalBlue
  | c => c

/-- Every colour of the stats string lies in the dark palette. -/
def statsDark (st : Stats) : Bool :=
  st.dimColor.all isDark && st.fmtColor.all isDark

/-- Every colour of the stats string lies in the light palette. -/
def statsLight (st : Stats) : Bool :=
  st.dimColor.all isLight && st.fmtColor.all isLight

/-- `backend.py` lines 238-250: the dimension colouring of the two
sides.  A side wholly larger in both width and height is better (first
two branches); differing but not dominating dimensions are marked with
the blue pair; equal dimensions carry no colour. -/
def dim_colors (w1 h1 w2 h2 : ℕ) : Option Color × Option Color :=
  if w1 > w2 ∧ h1 > h2 then (some .forestGreen, some .orangeRed)
  else if w2 > w1 ∧ h2 > h1 then (some .crimson, some .limeGreen)
  else if w1 ≠ w2 ∨ h1 ≠ h2 then (some .royalBlue, some .dodgerBlue)
  else (none, none)

/-- `backend.py` lines 252-264: the format colouring of the two sides.
`PNG` against `JPEG` is marked better/worse (in either order); any other
differing pair of formats is marked with the blue pair; equal formats
carry no colour. -/
def fmt_colors (f1 f2 : String) : Option Color × Option Color :=
  if f1 = "PNG" ∧ f2 = "JPEG" then (some .forestGreen, some .orangeRed)
  else if f1 = "JPEG" ∧ f2 = "PNG" then (some .crimson, some .limeGreen)
  else if f1 ≠ f2 then (some .royalBlue, some .dodgerBlue)
  else (none, none)

/-- Modelled from the spec: the spec's format rule speaks of "a lossless
format" versus "a lossy format" without enumerating them; over the
formats the Catalog admits (JPEG, PNG, GIF, WEBP as decoded by PIL),
PNG and GIF are the lossless ones, JPEG and WEBP the lossy ones. -/
def lossless (f : String) : Bool := f = "PNG" ∨ f = "GIF"

/-- The view fields that `_load_pair` sets when it presents a pair:
`_left_image`, `_right_image`, `_image` (the primary one), the two stats
strings, the `_left` flag and `_progress`. -/
structure View where
  leftImage : ImageRef
  rightImage : ImageRef
  image : ImageRef
  stats1 : Stats
  stats2 : Stats
  left : Bool
  progress : ℚ
  deriving DecidableEq, Repr

/-- The view built by `_load_pair` for pair `(p1, p2)` at index `idx`
out of `total` pairs (`backend.py` lines 219-268). -/
def mkView (p1 p2 : ImageRef) (idx : ℕ) (total : ℕ) : View :=
  { leftImage := p1
    rightImage := p2
    image := p1
    stats1 := { dimColor := (dim_colors p1.w p1.h p2.w p2.h).1
                dims := (p1.w, p1.h)
                fmtColor := (fmt_colors p1.fmt p2.fmt).1
                fmt := p1.fmt }
    stats2 := { dimColor := (dim_colors p1.w p1.h p2.w p2.h).2
                dims := (p2.w, p2.h)
                fmtColor := (fmt_colors p1.fmt p2.fmt).2
                fmt := p2.fmt }
    left := true
    progress := ((idx : ℚ) + 1) / (total : ℚ) }

/-- The mutable state of a `BackEnd` object: the immutable ranked list
`_scoorangeRed_pairs`, the `_discarded` set (a duplicate-free list), the
cursor `_idx`, whether `QGuiApplication.quit()` has been requested, and
the view fields (`none` until the first pair is presented). -/
structure State where
  pairs : List ScoredPair
  discarded : List ImageRef
  idx : ℕ
  finished : Bool
  view : Option View
  deriving DecidableEq, Repr

/-- Insertion into the `_discarded` set: a Python `set.add` is a no-op
on an already-present element. -/
def setAdd (l : List ImageRef) (a : ImageRef) : List ImageRef :=
  if a ∈ l then l else l ++ [a]

/-- `BackEnd._load_pair` together with the `self.next()` call it makes
on a moot pair (`backend.py` lines 182-186 and 199-217): if the cursor
is past the end, request application exit; if either image of the
current pair has been discarded, advance the cursor and retry; otherwise
present the pair. -/
def load_pair (s : State) : State :=
  if h : s.pairs.length ≤ s.idx then { s with finished := true }
  else
    let pr := s.pairs.get ⟨s.idx, by omega⟩
    if pr.1.1 ∈ s.discarded ∨ pr.1.2 ∈ s.discarded then
      load_pair { s with idx := s.idx + 1 }
    else
      { s with view := some (mkView pr.1.1 pr.1.2 s.idx s.pairs.length) }
termination_by s.pairs.length - s.idx
decreasing_by omega

/-- `BackEnd.next` (lines 182-186): advance the cursor and load. -/
def next (s : State) : State :=
  load_pair { s with idx := s.idx + 1 }

/-- `BackEnd.select` (lines 164-180).  The selected side is kept; the
other image is added to `_discarded` and then moved into the
`.discarded` quarantine directory.  The move's outcome is the `moveOk`
parameter: when the rename raises, the exception escapes the slot after
the set insertion, so the method returns with the cursor and view
untouched and `next` never runs. -/
def select (moveOk : Bool) (s : State) : State :=
  match s.view, s.pairs[s.idx]? with
  | some v, some pr =>
    let victim := if v.left then pr.1.2 else pr.1.1
    let s1 := { s with discarded := setAdd s.discarded victim }
    if moveOk then next s1 else s1
  | _, _ => s

/-- `BackEnd.toggle_image` (lines 142-162) on the view fields: swap the
primary image, move the stats string of the side leaving the primary
role to the light palette and the other one to the dark palette, and
flip `_left`. -/
def toggle_view (v : View) : View :=
  if v.left then
    { v with
      image := v.rightImage
      stats1 := recolor .royalBlue .dodgerBlue
        (recolor .crimson .orangeRed (recolor .forestGreen .limeGreen v.stats1))
      stats2 := recolor .dodgerBlue .royalBlue
        (recolor .orangeRed .crimson (recolor .limeGreen .forestGreen v.stats2))
      left := false }
  else
    { v with
      image := v.leftImage
      stats1 := recolor .dodgerBlue .royalBlue
        (recolor .orangeRed .crimson (recolor .limeGreen .forestGreen v.stats1))
      stats2 := recolor .royalBlue .dodgerBlue
        (recolor .crimson .orangeRed (recolor .forestGreen .limeGreen v.stats2))
      left := true }

/-- `BackEnd.toggle_image` as a state transition. -/
def toggle_image (s : State) : State :=
  match s.view with
  | none => s
  | some v => { s with view := some (toggle_view v) }

/-- `BackEnd.show_discarded` (lines 188-197): print nothing when the
discard set is empty, otherwise print the discarded paths in sorted
order.  The produced listing is modelled as `none` / `some list`. -/
def show_discarded (s : State) : Option (List ImageRef) :=
  if s.discarded.length = 0 then none
  else some (List.insertionSort refLe s.discarded)

/-- `BackEnd.__init__` (lines 13-28): empty discard set, cursor at 0,
then load the first pair. -/
def initState (pairs : List ScoredPair) : State :=
  load_pair { pairs := pairs, discarded := [], idx := 0, finished := false, view := none }

/-- Concrete image `A` used in witnesses: a 100x100 PNG. -/
def refA : ImageRef := { parent := 0, name := 0, ext := ".png", fmt := "PNG", w := 100, h := 100 }

/-- Concrete image `B` used in witnesses: a 50x50 JPEG in the same directory. -/
def refB : ImageRef := { parent := 0, name := 1, ext := ".jpg", fmt := "JPEG", w := 50, h := 50 }

/-- Concrete image `C` used in witnesses: a 40x40 PNG in another directory. -/
def refC : ImageRef := { parent := 1, name := 0, ext := ".png", fmt := "PNG", w := 40, h := 40 }

/-- Witness state: an exhausted session with an empty discard set. -/
def stEmpty : State :=
  { pairs := [], discarded := [], idx := 0, finished := true, view := none }

/-- Witness state: an exhausted session that discarded `refB` and `refA`. -/
def stDisc : State :=
  { pairs := [], discarded := [refB, refA], idx := 0, finished := true, view := none }

/-- Witness state: a session presenting the pair `(refA, refB)`. -/
def stPresent : State :=
  { pairs := [((refA, refB), 9 / 10)], discarded := [], idx := 0, finished := false,
    view := some (mkView refA refB 0 1) }

/-- Witness state: a session whose current pair `(refA, refB)` is moot
because `refA` has already been discarded. -/
def stMoot : State :=
  { pairs := [((refA, refB), 9 / 10), ((refB, refC), 1 / 2)], discarded := [refA],
    idx := 0, finished := false, view := none }

/-! ## Theorems -/

theorem pyInt_eq_floor (q : ℚ) (h : 0 ≤ q) : pyInt q = ⌊q⌋ := by
  unfold pyInt; exact if_pos h

theorem load_pair_eq_finish (s : State) (h : s.pairs.length ≤ s.idx) :
    load_pair s = { s with finished := true } := by
  rw [load_pair]; simp [h]

theorem load_pair_eq_skip (s : State) (h : s.idx < s.pairs.length)
    (hm : (s.pairs.get ⟨s.idx, h⟩).1.1 ∈ s.discarded ∨
      (s.pairs.get ⟨s.idx, h⟩).1.2 ∈ s.discarded) :
    load_pair s = load_pair { s with idx := s.idx + 1 } := by
  rw [load_pair]
  simp only [Nat.not_le.mpr h, dite_false, dif_neg (Nat.not_le.mpr h)]
  rw [if_pos hm]

theorem load_pair_eq_present (s : State) (h : s.idx < s.pairs.length)
    (hm : ¬((s.pairs.get ⟨s.idx, h⟩).1.1 ∈ s.discarded ∨
      (s.pairs.get ⟨s.idx, h⟩).1.2 ∈ s.discarded)) :
    load_pair s = { s with view := some (mkView (s.pairs.get ⟨s.idx, h⟩).1.1
      (s.pairs.get ⟨s.idx, h⟩).1.2 s.idx s.pairs.length) } := by
  rw [load_pair]
  simp only [Nat.not_le.mpr h, dite_false, dif_neg (Nat.not_le.mpr h)]
  rw [if_neg hm]

/-- C3 counterexample: two 2x3 images at resolution 100 give an average
aspect ratio of 2/3; the code truncates `100 * 2/3 = 66.67` to a target
width of 66, while rounding to the nearest integer as the claim states
would give 67. -/
theorem target_size_not_rounded :
    target_size 2 3 2 3 100 = (66, 100) ∧
    spec_target_size_round 2 3 2 3 100 = (67, 100) ∧
    target_size 2 3 2 3 100 ≠ spec_target_size_round 2 3 2 3 100 := by
  have h1 : target_size 2 3 2 3 100 = (66, 100) := by
    unfold target_size pyInt; norm_num
  have h2 : spec_target_size_round 2 3 2 3 100 = (67, 100) := by
    unfold spec_target_size_round; norm_num [round_eq]
  refine ⟨h1, h2, by rw [h1, h2]; decide⟩

/-- C3 (amended): the common target size truncates toward zero instead
of rounding to the nearest integer: with `avg_ar` the average aspect
ratio of the two decoded shapes, the portrait case yields
`(⌊resolution * avg_ar⌋, resolution)` and the other case
`(resolution, ⌊resolution / avg_ar⌋)`. -/
theorem target_size_floor_formula (w1 h1 w2 h2 res : ℕ)
    (hh1 : 0 < h1) (hh2 : 0 < h2) :
    (((w1 : ℚ) / (h1 : ℚ) + (w2 : ℚ) / (h2 : ℚ)) / 2 < 1 →
      target_size w1 h1 w2 h2 res =
        (⌊(res : ℚ) * (((w1 : ℚ) / (h1 : ℚ) + (w2 : ℚ) / (h2 : ℚ)) / 2)⌋, (res : ℤ))) ∧
    (1 ≤ ((w1 : ℚ) / (h1 : ℚ) + (w2 : ℚ) / (h2 : ℚ)) / 2 →
      target_size w1 h1 w2 h2 res =
        ((res : ℤ), ⌊(res : ℚ) / (((w1 : ℚ) / (h1 : ℚ) + (w2 : ℚ) / (h2 : ℚ)) / 2)⌋)) := by
  have havg : 0 ≤ ((w1 : ℚ) / (h1 : ℚ) + (w2 : ℚ) / (h2 : ℚ)) / 2 := by positivity
  constructor
  · intro hlt
    unfold target_size
    rw [if_pos hlt, pyInt_eq_floor _ (by positivity)]
  · intro hge
    unfold target_size
    rw [if_neg (not_lt.mpr hge), pyInt_eq_floor _ (by positivity)]

/-- C3 witness: the floor formula evaluated on the counterexample
shapes, in the portrait branch. -/
theorem target_size_floor_formula_witness :
    target_size 2 3 2 3 100 =
      (⌊(100 : ℚ) * (((2 : ℚ) / (3 : ℚ) + (2 : ℚ) / (3 : ℚ)) / 2)⌋, (100 : ℤ)) :=
  (target_size_floor_formula 2 3 2 3 100 (by norm_num) (by norm_num)).1 (by norm_num)

/-- C10: the scorer's resize-target positivity fails: for two decodable
1x200 images (portrait, average aspect ratio 1/200) at the default
resolution 100, the derived target width is `int(100 * 1/200) = 0`,
which is then handed to the resize step. -/
theorem target_size_zero_width :
    (target_size 1 200 1 200 100).1 = 0 ∧ ¬(1 ≤ (target_size 1 200 1 200 100).1) := by
  have h : (target_size 1 200 1 200 100).1 = 0 := by
    unfold target_size pyInt; norm_num
  exact ⟨h, by rw [h]; decide⟩

theorem get_pairs_pred_iff (cross : Bool) (tol : ℚ) (a b : ImageRef) :
    ((if cross ∧ a.parent = b.parent then false
      else if |ratio a - ratio b| > tol then false else true) = true) ↔
      ((cross = true → a.parent ≠ b.parent) ∧ |ratio a - ratio b| ≤ tol) := by
  split_ifs with h1 h2
  · simp only [Bool.false_eq_true, false_iff, not_and]
    intro hc
    exact absurd h1.2 (hc h1.1)
  · simp only [Bool.false_eq_true, false_iff, not_and]
    intro _
    exact not_le.mpr h2
  · simp only [true_iff]
    rw [not_and] at h1
    exact ⟨fun hc => h1 hc, not_lt.mp h2⟩

theorem mem_get_pairs_iff (images : List ImageRef) (cross : Bool) (tol : ℚ)
    (a b : ImageRef) :
    (a, b) ∈ get_pairs images cross tol ↔
      ((a, b) ∈ comb2 images ∧ (cross = true → a.parent ≠ b.parent) ∧
        |ratio a - ratio b| ≤ tol) := by
  unfold get_pairs
  rw [List.mem_filter, get_pairs_pred_iff]

/-- C6: a 2-combination that survives the cross filter is emitted by
`get_pairs` exactly when the raw absolute difference of the two aspect
ratios is at most `tolerance` (boundary inclusive), and with
`tolerance = 0` exactly when the two ratios are equal. -/
theorem get_pairs_tolerance_boundary (images : List ImageRef) (cross : Bool)
    (tol : ℚ) (a b : ImageRef)
    (hc : (a, b) ∈ comb2 images) (hcross : cross = true → a.parent ≠ b.parent) :
    ((a, b) ∈ get_pairs images cross tol ↔ |ratio a - ratio b| ≤ tol) ∧
    (tol = 0 → ((a, b) ∈ get_pairs images cross tol ↔ ratio a = ratio b)) := by
  constructor
  · rw [mem_get_pairs_iff]
    exact ⟨fun h => h.2.2, fun h => ⟨hc, hcross, h⟩⟩
  · intro h0
    rw [mem_get_pairs_iff, h0]
    constructor
    · intro h
      have := abs_nonpos_iff.mp h.2.2
      linarith [sub_eq_zero.mp this]
    · intro h
      exact ⟨hc, hcross, by rw [h, sub_self, abs_zero]⟩

/-- C6 witness: for the concrete images `refA` (ratio 1) and `refC`
(ratio 1) in different directories under cross mode, both parts of the
boundary theorem apply; with tolerance 0 the pair is emitted since the
ratios are equal. -/
theorem get_pairs_tolerance_boundary_witness :
    ((refA, refC) ∈ get_pairs [refA, refC] true 0 ↔ |ratio refA - ratio refC| ≤ 0) ∧
    ((refA, refC) ∈ get_pairs [refA, refC] true 0 ↔ ratio refA = ratio refC) :=
  ⟨(get_pairs_tolerance_boundary [refA, refC] true 0 refA refC (by decide)
      (fun _ => by decide)).1,
   (get_pairs_tolerance_boundary [refA, refC] true 0 refA refC (by decide)
      (fun _ => by decide)).2 rfl⟩

theorem comb2_mem_ne (l : List ImageRef) (hl : l.Nodup) (a b : ImageRef)
    (hm : (a, b) ∈ comb2 l) : a ≠ b := by
  induction l with
  | nil => simp [comb2] at hm
  | cons x xs ih =>
    rw [List.nodup_cons] at hl
    unfold comb2 at hm
    rw [List.mem_append] at hm
    rcases hm with hm | hm
    · rw [List.mem_map] at hm
      obtain ⟨y, hy, hxy⟩ := hm
      obtain ⟨rfl, rfl⟩ := Prod.mk.injEq .. ▸ hxy
      intro h
      exact hl.1 (h ▸ hy)
    · exact ih hl.2 hm

/-- C5 counterexample: the Catalog applied to the same directory twice
returns each image twice, and `get_pairs` without cross mode then emits
the pair of one image with itself (aspect-ratio difference 0), so the
two ImageRefs of a generated pair need not be distinct. -/
theorem get_pairs_duplicate_counterexample :
    get_images [⟨[refA]⟩, ⟨[refA]⟩] = [refA, refA] ∧
    (refA, refA) ∈ get_pairs (get_images [⟨[refA]⟩, ⟨[refA]⟩]) false (1 / 10) ∧
    (refA, refA).1 = (refA, refA).2 := by
  refine ⟨by decide, ?_, rfl⟩
  rw [show get_images [⟨[refA]⟩, ⟨[refA]⟩] = [refA, refA] from by decide]
  rw [mem_get_pairs_iff]
  exact ⟨by decide, by simp, by norm_num [ratio]⟩

/-- C5 (amended): a pair emitted by `get_pairs` has distinct ImageRefs
whenever the input list is duplicate-free, or whenever cross mode is
active (the same-parent filter removes self-pairs); under cross mode the
two images moreover never share a parent directory. -/
theorem get_pairs_refs_distinct (images : List ImageRef) (cross : Bool)
    (tol : ℚ) (a b : ImageRef)
    (hmem : (a, b) ∈ get_pairs images cross tol) :
    (cross = true → a.parent ≠ b.parent ∧ a ≠ b) ∧
    (images.Nodup → a ≠ b) := by
  rw [mem_get_pairs_iff] at hmem
  constructor
  · intro hc
    have hp := hmem.2.1 hc
    exact ⟨hp, fun h => hp (congrArg ImageRef.parent h)⟩
  · intro hnd
    exact comb2_mem_ne images hnd a b hmem.1

/-- C5 witness: for the duplicate-free list `[refA, refC]` under cross
mode, the emitted pair `(refA, refC)` has distinct refs in distinct
directories. -/
theorem get_pairs_refs_distinct_witness :
    (refA.parent ≠ refC.parent ∧ refA ≠ refC) ∧ refA ≠ refC :=
  have hmem : (refA, refC) ∈ get_pairs [refA, refC] true 1 := by
    rw [mem_get_pairs_iff]
    exact ⟨by decide, fun _ => by decide, by norm_num [ratio, refA, refC]⟩
  have h := get_pairs_refs_distinct [refA, refC] true 1 refA refC hmem
  ⟨h.1 rfl, h.2 (by decide)⟩

/-- C4 counterexample: GIF is lossless and JPEG lossy, yet a presented
GIF/JPEG pair is coloured with the incomparable-but-different blues, not
with the better/worse marks the claim requires: the code's better/worse
rule fires only for the literal PNG versus JPEG combination. -/
theorem fmt_colors_lossless_counterexample :
    lossless "GIF" = true ∧ lossless "JPEG" = false ∧ "GIF" ≠ "JPEG" ∧
    (fmt_colors "GIF" "JPEG").1.map meaning = some Marking.diff ∧
    (fmt_colors "GIF" "JPEG").1.map meaning ≠ some Marking.better ∧
    (fmt_colors "GIF" "JPEG").2.map meaning ≠ some Marking.worse := by
  refine ⟨by decide, by decide, by decide, ?_, ?_, ?_⟩ <;>
    simp [fmt_colors, meaning]

/-- C4 (amended): the format colouring of a presented pair marks the
sides better/worse exactly when the two formats are PNG and JPEG (in
either order, PNG better); any other differing format combination is
marked incomparable-but-different on both sides; equal formats carry no
marking. -/
theorem fmt_colors_characterization (f1 f2 : String) :
    (f1 = "PNG" ∧ f2 = "JPEG" →
      fmt_colors f1 f2 = (some .forestGreen, some .orangeRed) ∧
      meaning .forestGreen = .better ∧ meaning .orangeRed = .worse) ∧
    (f1 = "JPEG" ∧ f2 = "PNG" →
      fmt_colors f1 f2 = (some .crimson, some .limeGreen) ∧
      meaning .crimson = .worse ∧ meaning .limeGreen = .better) ∧
    (f1 ≠ f2 → ¬(f1 = "PNG" ∧ f2 = "JPEG") → ¬(f1 = "JPEG" ∧ f2 = "PNG") →
      (fmt_colors f1 f2).1.map meaning = some Marking.diff ∧
      (fmt_colors f1 f2).2.map meaning = some Marking.diff) ∧
    (f1 = f2 → fmt_colors f1 f2 = (none, none)) := by
  unfold fmt_colors
  refine ⟨?_, ?_, ?_, ?_⟩
  · rintro ⟨rfl, rfl⟩
    simp [meaning]
  · rintro ⟨rfl, rfl⟩
    simp [meaning]
  · intro hne h1 h2
    rw [if_neg h1, if_neg h2, if_pos hne]
    simp [meaning]
  · rintro rfl
    rw [if_neg (by rintro ⟨rfl, h⟩; exact absurd h (by decide)),
      if_neg (by rintro ⟨rfl, h⟩; exact absurd h (by decide)),
      if_neg (by simp)]

/-- C4 witness: the characterization applied to a PNG/JPEG pair, a
GIF/JPEG pair and an equal pair. -/
theorem fmt_colors_characterization_witness :
    (fmt_colors "PNG" "JPEG" = (some .forestGreen, some .orangeRed) ∧
      meaning .forestGreen = .better ∧ meaning .orangeRed = .worse) ∧
    ((fmt_colors "GIF" "JPEG").1.map meaning = some Marking.diff ∧
      (fmt_colors "GIF" "JPEG").2.map meaning = some Marking.diff) ∧
    fmt_colors "GIF" "GIF" = (none, none) :=
  ⟨(fmt_colors_characterization "PNG" "JPEG").1 ⟨rfl, rfl⟩,
   (fmt_colors_characterization "GIF" "JPEG").2.2.1 (by decide)
     (by rintro ⟨h, -⟩; exact absurd h (by decide))
     (by rintro ⟨h, -⟩; exact absurd h (by decide)),
   (fmt_colors_characterization "GIF" "GIF").2.2.2 rfl⟩

theorem filter_orderedInsert_score (q : ℚ) (x : ScoredPair) (m : List ScoredPair) :
    (List.orderedInsert scoreGe x m).filter (fun z => z.2 = q) =
      if x.2 = q then x :: m.filter (fun z => z.2 = q)
      else m.filter (fun z => z.2 = q) := by
  induction m with
  | nil =>
    simp only [List.orderedInsert, List.filter]
    split_ifs with h <;> simp [h]
  | cons y ys ih =>
    simp only [List.orderedInsert]
    by_cases hxy : scoreGe x y
    · rw [if_pos hxy]
      simp only [List.filter_cons]
      split_ifs with h1 h2 <;> simp_all
    · rw [if_neg hxy]
      simp only [List.filter_cons]
      by_cases hx : x.2 = q
      · by_cases hy : y.2 = q
        · exact absurd (show scoreGe x y from by unfold scoreGe; rw [hx, hy]) hxy
        · simp only [hx, hy, if_pos, if_neg, decide_eq_true_eq] at *
          simp [hy, ih, hx]
      · by_cases hy : y.2 = q <;> simp [hx, hy, ih]

/-- C7: ranking is a stable sort by score descending: the ranked list is
a permutation of the input (no filtering, no deduplication), it is
sorted with scores non-increasing over its whole length, and for every
score value the pairs carrying that score appear in their original
input order. -/
theorem rank_pairs_sorted_stable_perm (l : List ScoredPair) :
    (rank_pairs l).Perm l ∧
    List.Sorted scoreGe (rank_pairs l) ∧
    ∀ q : ℚ, (rank_pairs l).filter (fun z => z.2 = q) = l.filter (fun z => z.2 = q) := by
  refine ⟨List.perm_insertionSort scoreGe l, List.sorted_insertionSort scoreGe l, ?_⟩
  intro q
  induction l with
  | nil => rfl
  | cons x xs ih =>
    show (List.orderedInsert scoreGe x (List.insertionSort scoreGe xs)).filter _ = _
    rw [filter_orderedInsert_score]
    simp only [List.filter_cons]
    split_ifs with h <;> simp_all [rank_pairs]

/-- C9: at session end `show_discarded` prints nothing when the discard
set is empty, and otherwise prints a listing holding exactly the
discarded paths (a permutation of the discard set) in sorted path
order. -/
theorem show_discarded_listing (s : State) :
    (s.discarded = [] → show_discarded s = none) ∧
    (s.discarded ≠ [] → ∃ l, show_discarded s = some l ∧
      l.Perm s.discarded ∧ List.Sorted refLe l) := by
  constructor
  · intro h
    unfold show_discarded
    rw [if_pos (by rw [h]; rfl)]
  · intro h
    unfold show_discarded
    rw [if_neg (by simpa using h)]
    exact ⟨_, rfl, List.perm_insertionSort refLe s.discarded,
      List.sorted_insertionSort refLe s.discarded⟩

/-- C9 witness: a session state with `refB` and `refA` discarded lists
both, in sorted order; a state with nothing discarded prints nothing. -/
theorem show_discarded_listing_witness :
    show_discarded stEmpty = none ∧
    ∃ l, show_discarded stDisc = some l ∧
      l.Perm stDisc.discarded ∧ List.Sorted refLe l :=
  ⟨(show_discarded_listing stEmpty).1 rfl,
   (show_discarded_listing stDisc).2 (by decide)⟩

theorem mem_setAdd_self (l : List ImageRef) (a : ImageRef) : a ∈ setAdd l a := by
  unfold setAdd
  split_ifs with h
  · exact h
  · exact List.mem_append.mpr (Or.inr (List.mem_singleton.mpr rfl))

/-- C2: what `select` actually does when the quarantine move fails.  The
code adds the discarded image to `_discarded` *before* attempting the
rename, so after a failed move the victim is already a member of the
discard set, while the cursor, the finished flag and the view are left
untouched (the session stays in Presenting at the same pair, but the
discard has been recorded for a file that was never quarantined). -/
theorem select_move_failure (s : State) (v : View) (pr : ScoredPair)
    (hv : s.view = some v) (hp : s.pairs[s.idx]? = some pr) :
    select false s =
      { s with discarded := setAdd s.discarded (if v.left then pr.1.2 else pr.1.1) } ∧
    (if v.left then pr.1.2 else pr.1.1) ∈ (select false s).discarded ∧
    (select false s).idx = s.idx ∧
    (select false s).finished = s.finished ∧
    (select false s).view = s.view := by
  have heq : select false s =
      { s with discarded := setAdd s.discarded (if v.left then pr.1.2 else pr.1.1) } := by
    unfold select
    rw [hv, hp]
    simp
  refine ⟨heq, ?_, by rw [heq], by rw [heq], by rw [heq]⟩
  rw [heq]
  exact mem_setAdd_self _ _

/-- C2 witness: a session presenting `(refA, refB)` with the left image
primary; the rename of `refB` fails, yet `refB` lands in the discard set
and the cursor stays at pair 0. -/
theorem select_move_failure_witness :
    (if (mkView refA refB 0 1).left then refB else refA) ∈
      (select false stPresent).discarded ∧
    (select false stPresent).idx = 0 :=
  have h := select_move_failure stPresent
    (mkView refA refB 0 1) ((refA, refB), 9 / 10) rfl rfl
  ⟨h.2.1, h.2.2.1⟩

/-- C1: the presented-pair invariant of `Load`.  `_load_pair` changes
neither the ranked list nor the discard set; whenever it terminates
without requesting application exit it has presented the pair at its
final cursor, and neither member of that pair is in the discard set; and
whenever the pair under the cursor has a member in the discard set,
`_load_pair` behaves exactly like advancing the cursor and retrying. -/
theorem load_pair_presented_invariant (s : State) :
    ((load_pair s).pairs = s.pairs ∧ (load_pair s).discarded = s.discarded) ∧
    ((load_pair s).finished = true ∨
      ∃ v sc, (load_pair s).view = some v ∧
        s.pairs[(load_pair s).idx]? = some ((v.leftImage, v.rightImage), sc) ∧
        v.leftImage ∉ s.discarded ∧ v.rightImage ∉ s.discarded) ∧
    (∀ p1 p2 sc, s.pairs[s.idx]? = some ((p1, p2), sc) →
      p1 ∈ s.discarded ∨ p2 ∈ s.discarded →
      load_pair s = load_pair { s with idx := s.idx + 1 }) := by
  suffices H : ∀ n (s : State), s.pairs.length - s.idx = n →
      ((load_pair s).pairs = s.pairs ∧ (load_pair s).discarded = s.discarded) ∧
      ((load_pair s).finished = true ∨
        ∃ v sc, (load_pair s).view = some v ∧
          s.pairs[(load_pair s).idx]? = some ((v.leftImage, v.rightImage), sc) ∧
          v.leftImage ∉ s.discarded ∧ v.rightImage ∉ s.discarded) by
    refine ⟨(H _ s rfl).1, (H _ s rfl).2, ?_⟩
    intro p1 p2 sc hp hm
    have hlt : s.idx < s.pairs.length := by
      by_contra hge
      rw [List.getElem?_eq_none (by omega)] at hp
      exact Option.noConfusion hp
    have hget : s.pairs.get ⟨s.idx, hlt⟩ = ((p1, p2), sc) := by
      rw [List.get_eq_getElem, ← Option.some_inj, ← List.getElem?_eq_getElem hlt, hp]
    exact load_pair_eq_skip s hlt (by rw [hget]; exact hm)
  intro n
  induction n using Nat.strong_induction_on with
  | _ n ih =>
    intro s hn
    by_cases hle : s.pairs.length ≤ s.idx
    · rw [load_pair_eq_finish s hle]
      exact ⟨⟨rfl, rfl⟩, Or.inl rfl⟩
    · have hlt : s.idx < s.pairs.length := by omega
      by_cases hm : (s.pairs.get ⟨s.idx, hlt⟩).1.1 ∈ s.discarded ∨
          (s.pairs.get ⟨s.idx, hlt⟩).1.2 ∈ s.discarded
      · rw [load_pair_eq_skip s hlt hm]
        exact ih (s.pairs.length - (s.idx + 1)) (by omega) { s with idx := s.idx + 1 } rfl
      · rw [load_pair_eq_present s hlt hm]
        push_neg at hm
        refine ⟨⟨rfl, rfl⟩, Or.inr ?_⟩
        refine ⟨mkView (s.pairs.get ⟨s.idx, hlt⟩).1.1 (s.pairs.get ⟨s.idx, hlt⟩).1.2
          s.idx s.pairs.length, (s.pairs.get ⟨s.idx, hlt⟩).2, rfl, ?_, hm.1, hm.2⟩
        show s.pairs[s.idx]? = _
        rw [List.getElem?_eq_getElem hlt]
        rfl

/-- C1 witness: with `refA` already discarded, loading the moot pair
`(refA, refB)` at cursor 0 advances the cursor and retries. -/
theorem load_pair_presented_invariant_witness :
    load_pair stMoot = load_pair { stMoot with idx := stMoot.idx + 1 } :=
  (load_pair_presented_invariant stMoot).2.2 refA refB (9 / 10) rfl (by decide)

theorem recolor_dl (st : Stats) :
    recolor .royalBlue .dodgerBlue (recolor .crimson .orangeRed
      (recolor .forestGreen .limeGreen st)) =
    { st with dimColor := st.dimColor.map dlFun, fmtColor := st.fmtColor.map dlFun } := by
  cases st with
  | mk dc dims fc fmt =>
    cases dc with
    | none =>
      cases fc with
      | none => rfl
      | some c => cases c <;> rfl
    | some c =>
      cases fc with
      | none => cases c <;> rfl
      | some c2 => cases c <;> cases c2 <;> rfl

theorem recolor_ld (st : Stats) :
    recolor .dodgerBlue .royalBlue (recolor .orangeRed .crimson
      (recolor .limeGreen .forestGreen st)) =
    { st with dimColor := st.dimColor.map ldFun, fmtColor := st.fmtColor.map ldFun } := by
  cases st with
  | mk dc dims fc fmt =>
    cases dc with
    | none =>
      cases fc with
      | none => rfl
      | some c => cases c <;> rfl
    | some c =>
      cases fc with
      | none => cases c <;> rfl
      | some c2 => cases c <;> cases c2 <;> rfl

theorem optMap_meaning_dl (oc : Option Color) :
    (oc.map dlFun).map meaning = oc.map meaning := by
  cases oc with
  | none => rfl
  | some c => cases c <;> rfl

theorem optMap_meaning_ld (oc : Option Color) :
    (oc.map ldFun).map meaning = oc.map meaning := by
  cases oc with
  | none => rfl
  | some c => cases c <;> rfl

theorem optAll_light_map_dl (oc : Option Color) (h : oc.all isDark = true) :
    (oc.map dlFun).all isLight = true := by
  cases oc with
  | none => rfl
  | some c => revert h; cases c <;> decide

theorem optAll_dark_map_ld (oc : Option Color) (h : oc.all isLight = true) :
    (oc.map ldFun).all isDark = true := by
  cases oc with
  | none => rfl
  | some c => revert h; cases c <;> decide

theorem optMap_ld_dl (oc : Option Color) (h : oc.all isDark = true) :
    (oc.map dlFun).map ldFun = oc := by
  cases oc with
  | none => rfl
  | some c => revert h; cases c <;> decide

theorem optMap_dl_ld (oc : Option Color) (h : oc.all isLight = true) :
    (oc.map ldFun).map dlFun = oc := by
  cases oc with
  | none => rfl
  | some c => revert h; cases c <;> decide

/-- C8: toggle symmetry.  From a Presenting state with the left image
primary (as `_load_pair` creates it: primary stats in the dark palette,
secondary stats in the light palette), `toggle_image` makes the right
image primary, keeps every better/worse/different marking attached to
its side while swapping the two sides' palettes to track the new screen
roles; in particular, when the left image's dimensions were marked
better, after the toggle the now-primary right image's annotation is the
one carrying the worse marking.  Applying `toggle_image` twice restores
the state exactly: the primary image, both stats annotations, and the
is-left flag. -/
theorem toggle_display_symmetry (s : State) (v : View)
    (hv : s.view = some v) (hleft : v.left = true) (himg : v.image = v.leftImage)
    (hd1 : statsDark v.stats1 = true) (hl2 : statsLight v.stats2 = true) :
    ((toggle_image s).view = some (toggle_view v) ∧
      (toggle_view v).image = v.rightImage ∧
      (toggle_view v).left = false ∧
      (toggle_view v).leftImage = v.leftImage ∧
      (toggle_view v).rightImage = v.rightImage ∧
      (toggle_view v).stats1.dimColor.map meaning = v.stats1.dimColor.map meaning ∧
      (toggle_view v).stats1.fmtColor.map meaning = v.stats1.fmtColor.map meaning ∧
      (toggle_view v).stats2.dimColor.map meaning = v.stats2.dimColor.map meaning ∧
      (toggle_view v).stats2.fmtColor.map meaning = v.stats2.fmtColor.map meaning ∧
      statsLight (toggle_view v).stats1 = true ∧
      statsDark (toggle_view v).stats2 = true ∧
      (v.stats1.dimColor = some Color.forestGreen →
        v.stats2.dimColor = some Color.orangeRed →
        (toggle_view v).stats2.dimColor = some Color.crimson ∧
          meaning Color.crimson = Marking.worse)) ∧
    toggle_image (toggle_image s) = s := by
  have hd := hd1
  unfold statsDark at hd
  rw [Bool.and_eq_true] at hd
  have hl := hl2
  unfold statsLight at hl
  rw [Bool.and_eq_true] at hl
  have htv : toggle_view v =
      { v with
          image := v.rightImage,
          stats1 := { v.stats1 with
                        dimColor := v.stats1.dimColor.map dlFun,
                        fmtColor := v.stats1.fmtColor.map dlFun },
          stats2 := { v.stats2 with
                        dimColor := v.stats2.dimColor.map ldFun,
                        fmtColor := v.stats2.fmtColor.map ldFun },
          left := false } := by
    unfold toggle_view
    rw [if_pos hleft, recolor_dl, recolor_ld]
  have hti : toggle_image s = { s with view := some (toggle_view v) } := by
    unfold toggle_image
    rw [hv]
  constructor
  · refine ⟨by rw [hti], by rw [htv], by rw [htv], by rw [htv], by rw [htv],
      ?_, ?_, ?_, ?_, ?_, ?_, ?_⟩
    · rw [htv]; exact optMap_meaning_dl _
    · rw [htv]; exact optMap_meaning_dl _
    · rw [htv]; exact optMap_meaning_ld _
    · rw [htv]; exact optMap_meaning_ld _
    · rw [htv]
      unfold statsLight
      rw [Bool.and_eq_true]
      exact ⟨optAll_light_map_dl _ hd.1, optAll_light_map_dl _ hd.2⟩
    · rw [htv]
      unfold statsDark
      rw [Bool.and_eq_true]
      exact ⟨optAll_dark_map_ld _ hl.1, optAll_dark_map_ld _ hl.2⟩
    · intro h1 h2
      rw [htv]
      refine ⟨?_, rfl⟩
      show v.stats2.dimColor.map ldFun = some Color.crimson
      rw [h2]
      rfl
  · have hti2 : toggle_image (toggle_image s) =
        { s with view := some (toggle_view (toggle_view v)) } := by
      rw [hti]
      unfold toggle_image
      rfl
    have htv2 : toggle_view (toggle_view v) = v := by
      rw [htv]
      unfold toggle_view
      rw [if_neg (fun h => Bool.noConfusion h), recolor_ld, recolor_dl]
      show ({ v with
                image := v.leftImage,
                stats1 := { v.stats1 with
                              dimColor := (v.stats1.dimColor.map dlFun).map ldFun,
                              fmtColor := (v.stats1.fmtColor.map dlFun).map ldFun },
                stats2 := { v.stats2 with
                              dimColor := (v.stats2.dimColor.map ldFun).map dlFun,
                              fmtColor := (v.stats2.fmtColor.map ldFun).map dlFun },
                left := true } : View) = v
      rw [optMap_ld_dl _ hd.1, optMap_ld_dl _ hd.2, optMap_dl_ld _ hl.1,
        optMap_dl_ld _ hl.2]
      show (⟨v.leftImage, v.rightImage, v.leftImage, v.stats1, v.stats2, true,
        v.progress⟩ : View) = v
      conv_rhs => rw [show v = ⟨v.leftImage, v.rightImage, v.image, v.stats1,
        v.stats2, v.left, v.progress⟩ from rfl]
      simp only [View.mk.injEq, true_and, and_true]
      exact ⟨himg.symm, hleft.symm⟩
    rw [hti2, htv2, ← hv]

/-- C8 witness: toggling the presented pair `(refA, refB)` (whose left
side is marked better in both dimensions and format) makes the right
image primary with the worse-marked annotation, and toggling twice
restores the state. -/
theorem toggle_display_symmetry_witness :
    (toggle_view (mkView refA refB 0 1)).image = (mkView refA refB 0 1).rightImage ∧
    (toggle_view (mkView refA refB 0 1)).stats2.dimColor = some Color.crimson ∧
    toggle_image (toggle_image stPresent) = stPresent :=
  have h := toggle_display_symmetry stPresent (mkView refA refB 0 1) rfl rfl rfl
    (by decide) (by decide)
  ⟨h.1.2.1, (h.1.2.2.2.2.2.2.2.2.2.2.2 rfl rfl).1, h.2⟩

end ImCmp
